import Mathlib

/-!
# Verification of the Presentor storage layer

Shallow embedding of `src/src-tauri/src/lib.rs`: a local document/asset
store managing presentation JSON documents under a root directory and
image assets under its `images` subdirectory.

The filesystem is modelled as a finite map: a set of existing directories
and an association list from file paths to their text contents.  Paths are
parsed into component lists mirroring Rust's `std::path` normalisation
(empty and `.` components are dropped).  Each Tauri command becomes a pure
function `FS → Except String α × FS`: the returned state carries the side
effects that happened before a failure, exactly as on a real filesystem.
-/

deriving instance DecidableEq for Except

namespace Presentor

/-- A filesystem path, normalised to its non-empty components. -/
abbrev Path := List String

/-- Split a character list on `/` separators (components may be empty here;
they are filtered by `parsePath`). -/
def splitSlashAux : List Char → List Char → List (List Char)
  | [], cur => [cur.reverse]
  | c :: rest, cur =>
    if c = '/' then cur.reverse :: splitSlashAux rest []
    else splitSlashAux rest (c :: cur)

/-- Parse a path string into its components, the way Rust's
`Path::components` normalises: empty components (from `//`, leading or
trailing separators) and `.` components disappear. -/
def parsePath (s : String) : Path :=
  ((splitSlashAux s.data []).map (fun l => String.mk l)).filter
    (fun c => c ≠ "" && c ≠ ".")

/-- Rust's `Path::file_name`: the final component, unless the path is empty
(e.g. `""` or `"/"`) or ends in `..`. -/
def fileNameOf (s : String) : Option String :=
  match (parsePath s).getLast? with
  | none => none
  | some c => if c = ".." then none else some c

/-- Rust's `Path::file_stem` / `Path::extension` on a file name: split at
the last `.`, except that a dot in the leading position (hidden files such
as `.gitignore`) does not start an extension. -/
def splitStemExt (name : String) : String × Option String :=
  let cs := name.data
  let k := (cs.reverse.takeWhile (fun c => c ≠ '.')).length
  if k = cs.length then (name, none)
  else if k + 1 = cs.length then (name, none)
  else (String.mk (cs.take (cs.length - k - 1)), some (String.mk (cs.drop (cs.length - k))))

/-- Rust's `str::ends_with` for string suffixes. -/
def strEndsWith (s suffix : String) : Bool :=
  suffix.data.isSuffixOf s.data

/-- Rust's `str::to_lowercase` (on the ASCII range relevant here). -/
def strToLower (s : String) : String :=
  String.mk (s.data.map Char.toLower)

/-- Rust's `PathBuf::join` with a relative single-component name, rendered
as a string (used for the `path` field of returned entries). -/
def joinStr (base child : String) : String :=
  if base = "" then child
  else if base.data.getLast? = some '/' then base ++ child
  else base ++ "/" ++ child

/-- Rust's `Path::parent` at the component level: `none` for an empty or
root path, otherwise the path without its final component. -/
def parentPath (p : Path) : Option Path :=
  if p.isEmpty then none else some p.dropLast

/-- All prefixes of a path, the directories `create_dir_all` ensures. -/
def prefixesOf (p : Path) : List Path :=
  (List.range (p.length + 1)).map (fun i => p.take i)

/-- If `q` is a direct child of directory `d`, its name; otherwise `none`. -/
def childName (d q : Path) : Option String :=
  if q.length = d.length + 1 ∧ q.take d.length = d then q.getLast? else none

/-- Structured counterpart of the `std::io::Error` values the source
formats into strings; `msg` below renders them the way Linux does. -/
inductive FsError
  | notFound
  | notADirectory
  | isADirectory
  | alreadyExists
deriving DecidableEq, Repr

/-- The `Display` rendering of the corresponding `std::io::Error`. -/
def FsError.msg : FsError → String
  | .notFound => "No such file or directory (os error 2)"
  | .notADirectory => "Not a directory (os error 20)"
  | .isADirectory => "Is a directory (os error 21)"
  | .alreadyExists => "File exists (os error 17)"

/-- The filesystem: existing directories and files with their contents. -/
structure FS where
  dirs : List Path
  files : List (Path × String)
deriving DecidableEq, Repr

/-- Association-list lookup of a file's contents. -/
def assoc : List (Path × String) → Path → Option String
  | [], _ => none
  | (q, c) :: rest, p => if q = p then some c else assoc rest p

/-- Contents of the file at `p`, if a file exists there. -/
def FS.readFile? (fs : FS) (p : Path) : Option String :=
  assoc fs.files p

/-- Whether a regular file exists at `p` (Rust `Path::is_file`). -/
def FS.isFile (fs : FS) (p : Path) : Bool :=
  (fs.readFile? p).isSome

/-- Whether a directory exists at `p` (Rust `Path::is_dir`). -/
def FS.isDir (fs : FS) (p : Path) : Bool :=
  decide (p ∈ fs.dirs)

/-- Whether anything exists at `p` (Rust `Path::exists`). -/
def FS.pathExists (fs : FS) (p : Path) : Bool :=
  fs.isDir p || fs.isFile p

/-- `std::fs::create_dir_all`: creates the directory and every missing
ancestor; fails if some component of the path exists as a regular file. -/
def FS.createDirAll (fs : FS) (p : Path) : Except FsError FS :=
  if (prefixesOf p).any (fun q => fs.isFile q) then .error .alreadyExists
  else .ok ⟨((prefixesOf p).filter (fun q => !fs.isDir q)) ++ fs.dirs, fs.files⟩

/-- `std::fs::write`: overwrites the file at `p` with `content`; fails if a
directory sits at `p`. -/
def FS.writeFile (fs : FS) (p : Path) (content : String) : Except FsError FS :=
  if fs.isDir p then .error .isADirectory
  else .ok ⟨fs.dirs, (p, content) :: fs.files.filter (fun e => e.1 ≠ p)⟩

/-- `std::fs::remove_file`: removes the file at `p`; fails when nothing is
there (`NotFound`) or a directory is (`IsADirectory`). -/
def FS.removeFile (fs : FS) (p : Path) : Except FsError FS :=
  if fs.isFile p then .ok ⟨fs.dirs, fs.files.filter (fun e => e.1 ≠ p)⟩
  else .error (if fs.isDir p then .isADirectory else .notFound)

/-- `std::fs::copy`: reads the file at `src` and writes its bytes to `dst`,
overwriting `dst` if it exists; fails if `src` is missing or a directory,
or if `dst` is a directory or its parent directory is missing. -/
def FS.copyFile (fs : FS) (src dst : Path) : Except FsError FS :=
  match assoc fs.files src with
  | none => .error (if fs.isDir src then .isADirectory else .notFound)
  | some c =>
    if fs.isDir dst then .error .isADirectory
    else if !fs.isDir dst.dropLast then .error .notFound
    else .ok ⟨fs.dirs, (dst, c) :: fs.files.filter (fun e => e.1 ≠ dst)⟩

/-- The names yielded by `std::fs::read_dir` on directory `d`: the direct
children of `d`, files and subdirectories alike. -/
def FS.readDirNames (fs : FS) (d : Path) : List String :=
  fs.files.filterMap (fun e => childName d e.1) ++ fs.dirs.filterMap (childName d)

/-- `std::fs::read_dir`: fails unless a directory exists at `d`. -/
def FS.readDir (fs : FS) (d : Path) : Except FsError (List String) :=
  if fs.isDir d then .ok (fs.readDirNames d)
  else .error (if fs.isFile d then .notADirectory else .notFound)

/-- The `FileEntry` struct returned for presentation documents. -/
structure FileEntry where
  name : String
  path : String
  is_dir : Bool
deriving DecidableEq, Repr

/-- The `ImageEntry` struct returned for image assets. -/
structure ImageEntry where
  name : String
  path : String
deriving DecidableEq, Repr

/-- The per-entry closure of `list_presentations`: `entry.ok()` drops an
entry whose enumeration failed, then only a regular file whose name ends
in `.json` becomes an entry. -/
def presEntry (fs : FS) (dirStr : String) (d : Path) :
    Except String String → Option FileEntry
  | .error _ => none
  | .ok name =>
    if fs.isFile (d ++ [name]) && strEndsWith name ".json" then
      some ⟨name, joinStr dirStr name, false⟩
    else none

/-- The `filter_map` of `list_presentations` over the raw entry results. -/
def listPresProcess (fs : FS) (dirStr : String) (d : Path)
    (raw : List (Except String String)) : List FileEntry :=
  raw.filterMap (presEntry fs dirStr d)

/-- Tauri command `list_presentations`. -/
def list_presentations (fs : FS) (dirPath : String) :
    Except String (List FileEntry) × FS :=
  if fs.pathExists (parsePath dirPath) then
    match fs.readDir (parsePath dirPath) with
    | .error e => (.error e.msg, fs)
    | .ok names =>
      (.ok (listPresProcess fs dirPath (parsePath dirPath) (names.map Except.ok)), fs)
  else
    match fs.createDirAll (parsePath dirPath) with
    | .error e => (.error e.msg, fs)
    | .ok fs1 =>
      match fs1.readDir (parsePath dirPath) with
      | .error e => (.error e.msg, fs1)
      | .ok names =>
        (.ok (listPresProcess fs1 dirPath (parsePath dirPath) (names.map Except.ok)), fs1)

/-- Tauri command `read_presentation`. -/
def read_presentation (fs : FS) (path : String) : Except String String :=
  match fs.readFile? (parsePath path) with
  | some c => .ok c
  | none =>
    .error ("Failed to read file: " ++
      (if fs.isDir (parsePath path) then FsError.isADirectory else FsError.notFound).msg)

/-- Tauri command `save_presentation`. -/
def save_presentation (fs : FS) (path content : String) : Except String Unit × FS :=
  match parentPath (parsePath path) with
  | some parent =>
    match fs.createDirAll parent with
    | .error e => (.error e.msg, fs)
    | .ok fs1 =>
      match fs1.writeFile (parsePath path) content with
      | .error e => (.error ("Failed to save file: " ++ e.msg), fs1)
      | .ok fs2 => (.ok (), fs2)
  | none =>
    match fs.writeFile (parsePath path) content with
    | .error e => (.error ("Failed to save file: " ++ e.msg), fs)
    | .ok fs2 => (.ok (), fs2)

/-- Tauri command `delete_presentation`. -/
def delete_presentation (fs : FS) (path : String) : Except String Unit × FS :=
  match fs.removeFile (parsePath path) with
  | .error e => (.error ("Failed to delete file: " ++ e.msg), fs)
  | .ok fs1 => (.ok (), fs1)

/-- Tauri command `get_documents_path`.  The platform's answer to
`dirs::document_dir()` is passed in as `documentDir`; the command joins it
with the fixed `Presentor` folder name and never touches the filesystem. -/
def get_documents_path (fs : FS) (documentDir : Option String) :
    Except String String × FS :=
  match documentDir with
  | some p => (.ok (joinStr p "Presentor"), fs)
  | none => (.error "Could not find documents directory", fs)

/-- The candidate name `format!("{}-{}", stem, counter)` with the extension
appended when non-empty. -/
def candName (stem ext : String) (n : Nat) : String :=
  if ext = "" then stem ++ "-" ++ Nat.repr n
  else stem ++ "-" ++ Nat.repr n ++ "." ++ ext

/-- The `while dest_path.exists()` loop of `save_image`, trying counters
`start, start+1, …`.  `fuel` bounds the recursion; `save_image` passes one
more than the number of filesystem entries, which always suffices (see
`searchFrom_spec` and `exists_free_cand`). -/
def searchFrom (fs : FS) (d : Path) (stem ext : String) : Nat → Nat → String
  | 0, n => candName stem ext n
  | fuel + 1, n =>
    if fs.pathExists (d ++ [candName stem ext n]) then
      searchFrom fs d stem ext fuel (n + 1)
    else candName stem ext n

/-- The destination file name `save_image` settles on: the desired name if
free, otherwise the first free suffixed candidate starting at counter 1. -/
def destNameOf (fs : FS) (d : Path) (filename : String) : String :=
  if fs.pathExists (d ++ [filename]) then
    searchFrom fs d (splitStemExt filename).1 ((splitStemExt filename).2.getD "")
      (fs.dirs.length + fs.files.length + 1) 1
  else filename

/-- Tauri command `save_image`: ensures `storageDir/images` exists, extracts
the source file name, resolves collisions, copies the bytes, and returns the
stored file name. -/
def save_image (fs : FS) (storageDir sourcePath : String) :
    Except String String × FS :=
  match fs.createDirAll (parsePath storageDir ++ ["images"]) with
  | .error e => (.error e.msg, fs)
  | .ok fs1 =>
    match fileNameOf sourcePath with
    | none => (.error "Invalid source path", fs1)
    | some filename =>
      match fs1.copyFile (parsePath sourcePath)
          ((parsePath storageDir ++ ["images"]) ++
            [destNameOf fs1 (parsePath storageDir ++ ["images"]) filename]) with
      | .error e => (.error ("Failed to copy image: " ++ e.msg), fs1)
      | .ok fs2 =>
        (.ok (destNameOf fs1 (parsePath storageDir ++ ["images"]) filename), fs2)

/-- The image extension allow-list of `list_images`. -/
def imageExtensions : List String :=
  ["png", "jpg", "jpeg", "gif", "webp", "svg", "bmp"]

/-- The per-entry closure of `list_images`: `entry.ok()` drops an entry
whose enumeration failed; a regular file whose lower-cased extension is in
the allow-list becomes an entry. -/
def imageEntry (fs : FS) (dirStr : String) (d : Path) :
    Except String String → Option ImageEntry
  | .error _ => none
  | .ok name =>
    if fs.isFile (d ++ [name]) then
      if imageExtensions.contains (strToLower (((splitStemExt name).2).getD "")) then
        some ⟨name, joinStr dirStr name⟩
      else none
    else none

/-- The `filter_map` of `list_images` over the raw entry results. -/
def listImagesProcess (fs : FS) (dirStr : String) (d : Path)
    (raw : List (Except String String)) : List ImageEntry :=
  raw.filterMap (imageEntry fs dirStr d)

/-- Tauri command `list_images`. -/
def list_images (fs : FS) (storageDir : String) :
    Except String (List ImageEntry) × FS :=
  if fs.pathExists (parsePath storageDir ++ ["images"]) then
    match fs.readDir (parsePath storageDir ++ ["images"]) with
    | .error e => (.error e.msg, fs)
    | .ok names =>
      (.ok (listImagesProcess fs (joinStr storageDir "images")
        (parsePath storageDir ++ ["images"]) (names.map Except.ok)), fs)
  else
    match fs.createDirAll (parsePath storageDir ++ ["images"]) with
    | .error e => (.error e.msg, fs)
    | .ok fs1 => (.ok [], fs1)

/-- Tauri command `delete_image`. -/
def delete_image (fs : FS) (imagePath : String) : Except String Unit × FS :=
  match fs.removeFile (parsePath imagePath) with
  | .error e => (.error ("Failed to delete image: " ++ e.msg), fs)
  | .ok fs1 => (.ok (), fs1)

/-! ## Decimal rendering

`candName` renders the collision counter with `Nat.repr`.  The collision
argument needs distinct counters to yield distinct candidate names, so we
prove `Nat.repr` injective from first principles. -/

/-- Base-10 digits of `n`, least significant first. -/
def natDigitsRev (n : Nat) : List Nat :=
  if h : n < 10 then [n]
  else n % 10 :: natDigitsRev (n / 10)
decreasing_by exact Nat.div_lt_self (by omega) (by omega)

/-- Value of a least-significant-first digit list. -/
def digitsVal : List Nat → Nat
  | [] => 0
  | d :: ds => d + 10 * digitsVal ds

lemma digitsVal_natDigitsRev (n : Nat) : digitsVal (natDigitsRev n) = n := by
  induction n using Nat.strong_induction_on with
  | _ n ih =>
    rw [natDigitsRev]
    split
    · simp [digitsVal]
    · rw [digitsVal, ih (n / 10) (Nat.div_lt_self (by omega) (by omega))]
      omega

lemma natDigitsRev_lt (n : Nat) : ∀ d ∈ natDigitsRev n, d < 10 := by
  induction n using Nat.strong_induction_on with
  | _ n ih =>
    rw [natDigitsRev]
    split
    · intro d hd
      simp only [List.mem_singleton] at hd
      omega
    · intro d hd
      simp only [List.mem_cons] at hd
      rcases hd with h | h
      · omega
      · exact ih (n / 10) (Nat.div_lt_self (by omega) (by omega)) d h

lemma digitChar_inj_fin : ∀ a b : Fin 10, Nat.digitChar a.val = Nat.digitChar b.val → a = b := by
  decide

lemma digitChar_inj {a b : Nat} (ha : a < 10) (hb : b < 10)
    (h : Nat.digitChar a = Nat.digitChar b) : a = b := by
  have := digitChar_inj_fin ⟨a, ha⟩ ⟨b, hb⟩ h
  exact congrArg Fin.val this

lemma map_digitChar_inj : ∀ l1 l2 : List Nat, (∀ d ∈ l1, d < 10) → (∀ d ∈ l2, d < 10) →
    l1.map Nat.digitChar = l2.map Nat.digitChar → l1 = l2 := by
  intro l1
  induction l1 with
  | nil =>
    intro l2 _ _ h
    cases l2 <;> simp_all
  | cons a t ih =>
    intro l2 h1 h2 h
    cases l2 with
    | nil => simp_all
    | cons b t2 =>
      simp only [List.map_cons, List.cons.injEq] at h
      have hab : a = b := digitChar_inj (h1 a (by simp)) (h2 b (by simp)) h.1
      have ht : t = t2 :=
        ih t2 (fun d hd => h1 d (by simp [hd])) (fun d hd => h2 d (by simp [hd])) h.2
      rw [hab, ht]

lemma toDigitsCore_eq : ∀ (fuel n : Nat) (ds : List Char), n < fuel →
    Nat.toDigitsCore 10 fuel n ds = ((natDigitsRev n).map Nat.digitChar).reverse ++ ds := by
  intro fuel
  induction fuel with
  | zero => intro n ds h; omega
  | succ fuel ih =>
    intro n ds h
    simp only [Nat.toDigitsCore]
    by_cases h10 : n / 10 = 0
    · have hn : n < 10 := by omega
      rw [if_pos h10, natDigitsRev, dif_pos hn]
      simp [Nat.mod_eq_of_lt hn]
    · have hn : ¬n < 10 := by omega
      rw [if_neg h10, ih (n / 10) _ (by omega),
        show natDigitsRev n = n % 10 :: natDigitsRev (n / 10) from by
          rw [natDigitsRev, dif_neg hn]]
      simp

lemma string_data_inj {s t : String} (h : s.data = t.data) : s = t := by
  cases s
  cases t
  exact congrArg String.mk h

lemma natRepr_injective : Function.Injective Nat.repr := by
  intro a b h
  have ha : Nat.repr a = String.mk ((natDigitsRev a).map Nat.digitChar).reverse := by
    show (Nat.toDigits 10 a).asString = _
    rw [Nat.toDigits, toDigitsCore_eq (a + 1) a [] (by omega)]
    simp [List.asString]
  have hb : Nat.repr b = String.mk ((natDigitsRev b).map Nat.digitChar).reverse := by
    show (Nat.toDigits 10 b).asString = _
    rw [Nat.toDigits, toDigitsCore_eq (b + 1) b [] (by omega)]
    simp [List.asString]
  rw [ha, hb] at h
  have h2 : ((natDigitsRev a).map Nat.digitChar).reverse
      = ((natDigitsRev b).map Nat.digitChar).reverse := congrArg String.data h
  have h3 := List.reverse_injective h2
  have h4 := map_digitChar_inj _ _ (natDigitsRev_lt a) (natDigitsRev_lt b) h3
  have h5 := congrArg digitsVal h4
  rwa [digitsVal_natDigitsRev, digitsVal_natDigitsRev] at h5

lemma candName_injective (stem ext : String) : Function.Injective (candName stem ext) := by
  intro a b h
  unfold candName at h
  by_cases he : ext = ""
  · rw [if_pos he, if_pos he] at h
    have h2 := congrArg String.data h
    simp only [String.data_append] at h2
    have h3 := List.append_cancel_left h2
    exact natRepr_injective (string_data_inj h3)
  · rw [if_neg he, if_neg he] at h
    have h2 := congrArg String.data h
    simp only [String.data_append] at h2
    have h3 := List.append_cancel_right h2
    have h4 := List.append_cancel_right h3
    have h5 := List.append_cancel_left h4
    exact natRepr_injective (string_data_inj h5)

/-! ## Generic filesystem lemmas -/

lemma assoc_isSome_iff {l : List (Path × String)} {p : Path} :
    (assoc l p).isSome = true ↔ p ∈ l.map Prod.fst := by
  induction l with
  | nil => simp [assoc]
  | cons e t ih =>
    obtain ⟨q, c⟩ := e
    by_cases hq : q = p
    · subst hq
      simp [assoc]
    · simp only [assoc, if_neg hq, List.map_cons, List.mem_cons, ih]
      constructor
      · exact Or.inr
      · rintro (h | h)
        · exact absurd h.symm hq
        · exact h

lemma assoc_filter_ne {l : List (Path × String)} {p x : Path} (h : p ≠ x) :
    assoc (l.filter (fun e => e.1 ≠ x)) p = assoc l p := by
  induction l with
  | nil => simp
  | cons e t ih =>
    obtain ⟨q, c⟩ := e
    by_cases hqx : q = x
    · subst hqx
      rw [List.filter_cons_of_neg (by simp)]
      rw [ih, assoc, if_neg (fun hq => h hq.symm)]
    · rw [List.filter_cons_of_pos (by simpa using hqx)]
      rw [assoc, assoc, ih]

lemma assoc_filter_self {l : List (Path × String)} {x : Path} :
    assoc (l.filter (fun e => e.1 ≠ x)) x = none := by
  induction l with
  | nil => simp [assoc]
  | cons e t ih =>
    obtain ⟨q, c⟩ := e
    by_cases hqx : q = x
    · subst hqx
      rw [List.filter_cons_of_neg (by simp)]
      exact ih
    · rw [List.filter_cons_of_pos (by simpa using hqx)]
      rw [assoc, if_neg hqx]
      exact ih

/-- Every existing path of the filesystem, as one finite list. -/
def FS.allPaths (fs : FS) : List Path :=
  fs.dirs ++ fs.files.map Prod.fst

lemma pathExists_mem_allPaths {fs : FS} {p : Path} (h : fs.pathExists p = true) :
    p ∈ fs.allPaths := by
  unfold FS.pathExists FS.isDir FS.isFile FS.readFile? at h
  rw [Bool.or_eq_true, decide_eq_true_iff, assoc_isSome_iff] at h
  unfold FS.allPaths
  rw [List.mem_append]
  exact h

lemma allPaths_length (fs : FS) :
    fs.allPaths.length = fs.dirs.length + fs.files.length := by
  simp [FS.allPaths]

/-- Pigeonhole: the filesystem is finite while the candidate names are
pairwise distinct, so some counter in the searched window is free. -/
lemma exists_free_cand (fs : FS) (d : Path) (stem ext : String) (start : Nat) :
    ∃ k, k < fs.dirs.length + fs.files.length + 1 ∧
      fs.pathExists (d ++ [candName stem ext (start + k)]) = false := by
  by_contra hc
  push_neg at hc
  have hall : ∀ k, k < fs.dirs.length + fs.files.length + 1 →
      (d ++ [candName stem ext (start + k)]) ∈ fs.allPaths := by
    intro k hk
    have hne := hc k hk
    have ht : fs.pathExists (d ++ [candName stem ext (start + k)]) = true := by
      cases hb : fs.pathExists (d ++ [candName stem ext (start + k)]) with
      | false => exact absurd hb hne
      | true => rfl
    exact pathExists_mem_allPaths ht
  have hinj : Function.Injective (fun k : Nat => d ++ [candName stem ext (start + k)]) := by
    intro a b hab
    have h2 := List.append_cancel_left hab
    have h3 : candName stem ext (start + a) = candName stem ext (start + b) := by
      simpa using h2
    have h4 := candName_injective stem ext h3
    omega
  have hnd : ((List.range (fs.dirs.length + fs.files.length + 1)).map
      (fun k => d ++ [candName stem ext (start + k)])).Nodup :=
    (List.nodup_range _).map hinj
  have hsub : ((List.range (fs.dirs.length + fs.files.length + 1)).map
      (fun k => d ++ [candName stem ext (start + k)])) ⊆ fs.allPaths := by
    intro x hx
    simp only [List.mem_map, List.mem_range] at hx
    obtain ⟨k, hk, rfl⟩ := hx
    exact hall k hk
  have hle := (hnd.subperm hsub).length_le
  rw [List.length_map, List.length_range, allPaths_length] at hle
  omega

/-- The collision loop returns the first free candidate at or after `start`,
provided some candidate within `fuel` steps is free. -/
lemma searchFrom_spec (fs : FS) (d : Path) (stem ext : String) :
    ∀ (fuel start : Nat),
      (∃ k, k < fuel ∧ fs.pathExists (d ++ [candName stem ext (start + k)]) = false) →
      ∃ k, k < fuel ∧
        searchFrom fs d stem ext fuel start = candName stem ext (start + k) ∧
        fs.pathExists (d ++ [candName stem ext (start + k)]) = false ∧
        ∀ j, j < k → fs.pathExists (d ++ [candName stem ext (start + j)]) = true := by
  intro fuel
  induction fuel with
  | zero =>
    intro start h
    obtain ⟨k, hk, _⟩ := h
    omega
  | succ fuel ih =>
    intro start h
    by_cases h0 : fs.pathExists (d ++ [candName stem ext start]) = true
    · have hrec : ∃ k, k < fuel ∧
          fs.pathExists (d ++ [candName stem ext (start + 1 + k)]) = false := by
        obtain ⟨k, hk, hfree⟩ := h
        cases k with
        | zero =>
          rw [Nat.add_zero] at hfree
          rw [h0] at hfree
          exact absurd hfree (by simp)
        | succ k2 =>
          refine ⟨k2, by omega, ?_⟩
          rw [show start + 1 + k2 = start + (k2 + 1) by omega]
          exact hfree
      obtain ⟨k, hk, heq, hfree, hmin⟩ := ih (start + 1) hrec
      refine ⟨k + 1, by omega, ?_, ?_, ?_⟩
      · rw [searchFrom, if_pos h0, heq]
        congr 1
        omega
      · rw [show start + (k + 1) = start + 1 + k by omega]
        exact hfree
      · intro j hj
        cases j with
        | zero =>
          rw [Nat.add_zero]
          exact h0
        | succ j2 =>
          rw [show start + (j2 + 1) = start + 1 + j2 by omega]
          exact hmin j2 (by omega)
    · refine ⟨0, by omega, ?_, ?_, ?_⟩
      · rw [searchFrom, if_neg h0, Nat.add_zero]
      · rw [Nat.add_zero]
        cases hb : fs.pathExists (d ++ [candName stem ext start]) with
        | false => rfl
        | true => exact absurd hb h0
      · intro j hj
        omega

/-! ## `create_dir_all` frame lemmas -/

lemma createDirAll_ok_files {fs fs1 : FS} {p : Path}
    (h : fs.createDirAll p = .ok fs1) : fs1.files = fs.files := by
  unfold FS.createDirAll at h
  split at h
  · exact Except.noConfusion h
  · injection h with h2
    rw [← h2]

lemma createDirAll_ok_isFile {fs fs1 : FS} {p : Path}
    (h : fs.createDirAll p = .ok fs1) (q : Path) : fs1.isFile q = fs.isFile q := by
  unfold FS.isFile FS.readFile?
  rw [createDirAll_ok_files h]

lemma createDirAll_ok_readFile {fs fs1 : FS} {p : Path}
    (h : fs.createDirAll p = .ok fs1) (q : Path) : fs1.readFile? q = fs.readFile? q := by
  unfold FS.readFile?
  rw [createDirAll_ok_files h]

lemma mem_prefixesOf_length {p q : Path} (h : q ∈ prefixesOf p) : q.length ≤ p.length := by
  unfold prefixesOf at h
  simp only [List.mem_map, List.mem_range] at h
  obtain ⟨i, _, rfl⟩ := h
  simp

lemma createDirAll_ok_isDir_longer {fs fs1 : FS} {p q : Path}
    (h : fs.createDirAll p = .ok fs1) (hlen : p.length < q.length) :
    fs1.isDir q = fs.isDir q := by
  unfold FS.createDirAll at h
  split at h
  · exact Except.noConfusion h
  · injection h with h2
    rw [← h2]
    unfold FS.isDir
    rw [decide_eq_decide]
    simp only [List.mem_append, List.mem_filter]
    constructor
    · rintro (⟨hq, _⟩ | hq)
      · have := mem_prefixesOf_length hq
        omega
      · exact hq
    · exact Or.inr

lemma createDirAll_ok_pathExists_longer {fs fs1 : FS} {p q : Path}
    (h : fs.createDirAll p = .ok fs1) (hlen : p.length < q.length) :
    fs1.pathExists q = fs.pathExists q := by
  unfold FS.pathExists
  rw [createDirAll_ok_isFile h, createDirAll_ok_isDir_longer h hlen]

lemma self_mem_prefixesOf (p : Path) : p ∈ prefixesOf p := by
  unfold prefixesOf
  simp only [List.mem_map, List.mem_range]
  exact ⟨p.length, by omega, List.take_length p⟩

lemma createDirAll_ok_isDir_self {fs fs1 : FS} {p : Path}
    (h : fs.createDirAll p = .ok fs1) : fs1.isDir p = true := by
  unfold FS.createDirAll at h
  split at h
  · exact Except.noConfusion h
  · injection h with h2
    rw [← h2]
    unfold FS.isDir
    rw [decide_eq_true_iff]
    rw [List.mem_append, List.mem_filter]
    by_cases hp : fs.isDir p
    · right
      unfold FS.isDir at hp
      exact decide_eq_true_iff.mp hp
    · left
      refine ⟨self_mem_prefixesOf p, ?_⟩
      have hp2 : fs.isDir p = false := by
        cases hb : fs.isDir p with
        | false => rfl
        | true => exact absurd hb hp
      simp only [Bool.not_eq_true']
      exact hp2

lemma createDirAll_ok_isDir_mono {fs fs1 : FS} {p q : Path}
    (h : fs.createDirAll p = .ok fs1) (hq : fs.isDir q = true) : fs1.isDir q = true := by
  unfold FS.createDirAll at h
  split at h
  · exact Except.noConfusion h
  · injection h with h2
    rw [← h2]
    unfold FS.isDir at hq ⊢
    rw [decide_eq_true_iff] at hq ⊢
    rw [List.mem_append]
    exact Or.inr hq

/-! ## Directory enumeration lemmas -/

lemma childName_append (d : Path) (n : String) : childName d (d ++ [n]) = some n := by
  unfold childName
  rw [if_pos ⟨by simp, List.take_left d [n]⟩]
  exact List.getLast?_concat d

lemma childName_eq {d q : Path} {n : String} (h : childName d q = some n) :
    q = d ++ [n] := by
  unfold childName at h
  by_cases hc : q.length = d.length + 1 ∧ q.take d.length = d
  · rw [if_pos hc] at h
    obtain ⟨hlen, htake⟩ := hc
    have hq := List.take_append_drop d.length q
    have hdlen : (q.drop d.length).length = 1 := by
      rw [List.length_drop]
      omega
    obtain ⟨x, hx⟩ := List.length_eq_one.mp hdlen
    rw [htake, hx] at hq
    have hlast : q.getLast? = some x := by
      rw [← hq]
      exact List.getLast?_concat d
    rw [hlast] at h
    injection h with h2
    rw [← hq, h2]
  · rw [if_neg hc] at h
    exact Option.noConfusion h

lemma mem_readDirNames {fs : FS} {d : Path} {n : String} :
    n ∈ fs.readDirNames d ↔
      (fs.isFile (d ++ [n]) = true ∨ fs.isDir (d ++ [n]) = true) := by
  unfold FS.readDirNames
  rw [List.mem_append]
  constructor
  · rintro (h | h)
    · left
      rw [List.mem_filterMap] at h
      obtain ⟨⟨q, c⟩, hmem, hcn⟩ := h
      have hqd : q = d ++ [n] := childName_eq hcn
      subst hqd
      unfold FS.isFile FS.readFile?
      rw [assoc_isSome_iff]
      exact List.mem_map_of_mem Prod.fst hmem
    · right
      rw [List.mem_filterMap] at h
      obtain ⟨q, hmem, hcn⟩ := h
      have hqd : q = d ++ [n] := childName_eq hcn
      subst hqd
      unfold FS.isDir
      exact decide_eq_true hmem
  · rintro (h | h)
    · left
      rw [List.mem_filterMap]
      unfold FS.isFile FS.readFile? at h
      rw [assoc_isSome_iff, List.mem_map] at h
      obtain ⟨⟨q, c⟩, hmem, hq⟩ := h
      refine ⟨(q, c), hmem, ?_⟩
      show childName d q = some n
      rw [show q = d ++ [n] from hq]
      exact childName_append d n
    · right
      rw [List.mem_filterMap]
      refine ⟨d ++ [n], ?_, childName_append d n⟩
      unfold FS.isDir at h
      exact decide_eq_true_iff.mp h

lemma mem_listPresProcess {fs : FS} {dirStr : String} {d : Path}
    {names : List String} {e : FileEntry} :
    e ∈ listPresProcess fs dirStr d (names.map Except.ok) ↔
      ∃ n, n ∈ names ∧ fs.isFile (d ++ [n]) = true ∧ strEndsWith n ".json" = true ∧
        e = ⟨n, joinStr dirStr n, false⟩ := by
  unfold listPresProcess
  rw [List.mem_filterMap]
  constructor
  · rintro ⟨r, hr, hsome⟩
    rw [List.mem_map] at hr
    obtain ⟨n, hn, rfl⟩ := hr
    rw [show presEntry fs dirStr d (Except.ok n) =
        (if (fs.isFile (d ++ [n]) && strEndsWith n ".json") = true then
          some (⟨n, joinStr dirStr n, false⟩ : FileEntry) else none) from rfl] at hsome
    by_cases hc : (fs.isFile (d ++ [n]) && strEndsWith n ".json") = true
    · rw [if_pos hc] at hsome
      injection hsome with h2
      rw [Bool.and_eq_true] at hc
      exact ⟨n, hn, hc.1, hc.2, h2.symm⟩
    · rw [if_neg hc] at hsome
      exact Option.noConfusion hsome
  · rintro ⟨n, hn, hf, hs, rfl⟩
    refine ⟨Except.ok n, List.mem_map_of_mem Except.ok hn, ?_⟩
    rw [show presEntry fs dirStr d (Except.ok n) =
        (if (fs.isFile (d ++ [n]) && strEndsWith n ".json") = true then
          some (⟨n, joinStr dirStr n, false⟩ : FileEntry) else none) from rfl]
    rw [if_pos (by rw [Bool.and_eq_true]; exact ⟨hf, hs⟩)]

lemma mem_listImagesProcess {fs : FS} {dirStr : String} {d : Path}
    {names : List String} {e : ImageEntry} :
    e ∈ listImagesProcess fs dirStr d (names.map Except.ok) ↔
      ∃ n, n ∈ names ∧ fs.isFile (d ++ [n]) = true ∧
        imageExtensions.contains (strToLower (((splitStemExt n).2).getD "")) = true ∧
        e = ⟨n, joinStr dirStr n⟩ := by
  unfold listImagesProcess
  rw [List.mem_filterMap]
  constructor
  · rintro ⟨r, hr, hsome⟩
    rw [List.mem_map] at hr
    obtain ⟨n, hn, rfl⟩ := hr
    rw [show imageEntry fs dirStr d (Except.ok n) =
        (if fs.isFile (d ++ [n]) = true then
          (if imageExtensions.contains (strToLower (((splitStemExt n).2).getD "")) = true then
            some (⟨n, joinStr dirStr n⟩ : ImageEntry) else none) else none) from rfl] at hsome
    by_cases hf : fs.isFile (d ++ [n]) = true
    · rw [if_pos hf] at hsome
      by_cases hx : imageExtensions.contains (strToLower (((splitStemExt n).2).getD "")) = true
      · rw [if_pos hx] at hsome
        injection hsome with h2
        exact ⟨n, hn, hf, hx, h2.symm⟩
      · rw [if_neg hx] at hsome
        exact Option.noConfusion hsome
    · rw [if_neg hf] at hsome
      exact Option.noConfusion hsome
  · rintro ⟨n, hn, hf, hx, rfl⟩
    refine ⟨Except.ok n, List.mem_map_of_mem Except.ok hn, ?_⟩
    rw [show imageEntry fs dirStr d (Except.ok n) =
        (if fs.isFile (d ++ [n]) = true then
          (if imageExtensions.contains (strToLower (((splitStemExt n).2).getD "")) = true then
            some (⟨n, joinStr dirStr n⟩ : ImageEntry) else none) else none) from rfl]
    rw [if_pos hf, if_pos hx]

/-! ## `save_image` anatomy -/

lemma pathExists_false_isFile {fs : FS} {p : Path} (h : fs.pathExists p = false) :
    fs.isFile p = false := by
  unfold FS.pathExists at h
  exact (Bool.or_eq_false_iff.mp h).2

lemma pathExists_false_isDir {fs : FS} {p : Path} (h : fs.pathExists p = false) :
    fs.isDir p = false := by
  unfold FS.pathExists at h
  exact (Bool.or_eq_false_iff.mp h).1

lemma save_image_ok_elim {fs fs' : FS} {storageDir sourcePath dest : String}
    (h : save_image fs storageDir sourcePath = (.ok dest, fs')) :
    ∃ (fs1 : FS) (filename : String),
      fs.createDirAll (parsePath storageDir ++ ["images"]) = .ok fs1 ∧
      fileNameOf sourcePath = some filename ∧
      dest = destNameOf fs1 (parsePath storageDir ++ ["images"]) filename ∧
      fs1.copyFile (parsePath sourcePath)
        ((parsePath storageDir ++ ["images"]) ++ [dest]) = .ok fs' := by
  unfold save_image at h
  split at h
  · simp at h
  · rename_i fs1 hcd
    split at h
    · simp at h
    · rename_i filename hfn
      split at h
      · simp at h
      · rename_i fs2 hcp
        simp only [Prod.mk.injEq] at h
        obtain ⟨h1, h2⟩ := h
        injection h1 with h1
        refine ⟨fs1, filename, hcd, hfn, h1.symm, ?_⟩
        rw [← h1, ← h2]
        exact hcp

/-- The destination name of `save_image` is the desired name when it is
free, and otherwise the first free suffixed candidate with counter `n ≥ 1`. -/
lemma destNameOf_spec (fs1 : FS) (d : Path) (filename : String) :
    (fs1.pathExists (d ++ [filename]) = false ∧ destNameOf fs1 d filename = filename) ∨
    (fs1.pathExists (d ++ [filename]) = true ∧
      ∃ n, 1 ≤ n ∧
        destNameOf fs1 d filename =
          candName (splitStemExt filename).1 (((splitStemExt filename).2).getD "") n ∧
        fs1.pathExists
          (d ++ [candName (splitStemExt filename).1 (((splitStemExt filename).2).getD "") n]) = false ∧
        ∀ m, 1 ≤ m → m < n →
          fs1.pathExists
            (d ++ [candName (splitStemExt filename).1 (((splitStemExt filename).2).getD "") m]) = true) := by
  unfold destNameOf
  by_cases h : fs1.pathExists (d ++ [filename]) = true
  · right
    refine ⟨h, ?_⟩
    rw [if_pos h]
    obtain ⟨k, hk, heq, hfree, hmin⟩ :=
      searchFrom_spec fs1 d (splitStemExt filename).1 (((splitStemExt filename).2).getD "")
        (fs1.dirs.length + fs1.files.length + 1) 1
        (exists_free_cand fs1 d (splitStemExt filename).1 (((splitStemExt filename).2).getD "") 1)
    refine ⟨1 + k, by omega, heq, hfree, ?_⟩
    intro m hm1 hmn
    have hj := hmin (m - 1) (by omega)
    rw [show 1 + (m - 1) = m by omega] at hj
    exact hj
  · left
    have hf : fs1.pathExists (d ++ [filename]) = false := by
      cases hb : fs1.pathExists (d ++ [filename]) with
      | false => rfl
      | true => exact absurd hb h
    exact ⟨hf, by rw [if_neg h]⟩

lemma copyFile_ok_elim {fs fs2 : FS} {src dst : Path}
    (h : fs.copyFile src dst = .ok fs2) :
    ∃ c, assoc fs.files src = some c ∧
      fs2.dirs = fs.dirs ∧
      fs2.files = (dst, c) :: fs.files.filter (fun e => e.1 ≠ dst) := by
  unfold FS.copyFile at h
  split at h
  · exact Except.noConfusion h
  · rename_i c hsrc
    split at h
    · exact Except.noConfusion h
    · split at h
      · exact Except.noConfusion h
      · injection h with h2
        rw [← h2]
        exact ⟨c, hsrc, rfl, rfl⟩

lemma writeFile_ok_elim {fs fs2 : FS} {p : Path} {c : String}
    (h : fs.writeFile p c = .ok fs2) :
    fs2.dirs = fs.dirs ∧ fs2.files = (p, c) :: fs.files.filter (fun e => e.1 ≠ p) := by
  unfold FS.writeFile at h
  split at h
  · exact Except.noConfusion h
  · injection h with h2
    rw [← h2]
    exact ⟨rfl, rfl⟩

/-! ## Claim C1: collision resolution -/

/-- Modelled from the spec's words (collision resolution algorithm, §4.4):
the stored name is the desired file name `F = S.E` itself when free, and
otherwise `S-n.E` (or `S-n` when `E` is empty) for the smallest counter
`n ≥ 1` whose candidate does not exist in the images directory. -/
def specCollisionOk (fs : FS) (d : Path) (stem ext filename dest : String) : Prop :=
  (fs.pathExists (d ++ [filename]) = false ∧ dest = filename) ∨
  (fs.pathExists (d ++ [filename]) = true ∧
    ∃ n, 1 ≤ n ∧ dest = candName stem ext n ∧
      fs.pathExists (d ++ [candName stem ext n]) = false ∧
      ∀ m, 1 ≤ m → m < n → fs.pathExists (d ++ [candName stem ext m]) = true)

/-- C1: a successful import stores under the desired name when it is free,
and otherwise under `S-n.E` (or `S-n` for empty `E`) for the smallest
counter `n ≥ 1` whose candidate name does not exist in the images
directory.  The witness below instantiates this to the spec's example,
where importing `photo.jpg` next to existing `photo.jpg` and `photo-1.jpg`
returns `photo-2.jpg`. -/
theorem save_image_uses_first_free_name
    (fs fs' : FS) (storageDir sourcePath filename dest : String)
    (hname : fileNameOf sourcePath = some filename)
    (hrun : save_image fs storageDir sourcePath = (.ok dest, fs')) :
    specCollisionOk fs (parsePath storageDir ++ ["images"])
      (splitStemExt filename).1 (((splitStemExt filename).2).getD "") filename dest := by
  obtain ⟨fs1, filename2, hcd, hfn, hdest, hcp⟩ := save_image_ok_elim hrun
  rw [hname] at hfn
  injection hfn with hfn2
  subst hfn2
  have hpe : ∀ name : String,
      fs1.pathExists ((parsePath storageDir ++ ["images"]) ++ [name]) =
        fs.pathExists ((parsePath storageDir ++ ["images"]) ++ [name]) := by
    intro name
    exact createDirAll_ok_pathExists_longer hcd (by simp)
  rcases destNameOf_spec fs1 (parsePath storageDir ++ ["images"]) filename with
    ⟨hfree, hd⟩ | ⟨hocc, n, hn1, hd, hfree, hmin⟩
  · left
    refine ⟨?_, by rw [hdest, hd]⟩
    rw [← hpe filename]
    exact hfree
  · right
    refine ⟨by rw [← hpe filename]; exact hocc, n, hn1, by rw [hdest, hd], ?_, ?_⟩
    · rw [← hpe _]
      exact hfree
    · intro m h1 h2
      rw [← hpe _]
      exact hmin m h1 h2

/-- Example filesystem of the spec: the images directory under root
`root` already holds `photo.jpg` and `photo-1.jpg`; the import source is
`pics/photo.jpg`. -/
def photoFS : FS :=
  ⟨[[], ["root"], ["root", "images"], ["pics"]],
   [(["root", "images", "photo.jpg"], "A"),
    (["root", "images", "photo-1.jpg"], "B"),
    (["pics", "photo.jpg"], "IMG")]⟩

/-- The filesystem after importing `pics/photo.jpg` into `photoFS`. -/
def photoFS2 : FS :=
  ⟨[[], ["root"], ["root", "images"], ["pics"]],
   [(["root", "images", "photo-2.jpg"], "IMG"),
    (["root", "images", "photo.jpg"], "A"),
    (["root", "images", "photo-1.jpg"], "B"),
    (["pics", "photo.jpg"], "IMG")]⟩

/-- Witness for C1: the spec's own example, importing `photo.jpg` into an
images directory already containing `photo.jpg` and `photo-1.jpg` stores
`photo-2.jpg`. -/
theorem save_image_uses_first_free_name_witness :
    save_image photoFS "root" "pics/photo.jpg" = (.ok "photo-2.jpg", photoFS2) ∧
    specCollisionOk photoFS (parsePath "root" ++ ["images"])
      (splitStemExt "photo.jpg").1 (((splitStemExt "photo.jpg").2).getD "")
      "photo.jpg" "photo-2.jpg" :=
  ⟨by decide,
   save_image_uses_first_free_name photoFS photoFS2 "root" "pics/photo.jpg"
     "photo.jpg" "photo-2.jpg" (by decide) (by decide)⟩

/-! ## Claim C2: no overwrite -/

/-- C2: a successful import copies to a destination that did not exist at
the existence check, and every file present before the import keeps its
contents. -/
theorem save_image_no_overwrite
    (fs fs' : FS) (storageDir sourcePath dest : String)
    (hrun : save_image fs storageDir sourcePath = (.ok dest, fs')) :
    fs.pathExists ((parsePath storageDir ++ ["images"]) ++ [dest]) = false ∧
    ∀ q : Path, fs.isFile q = true → fs'.readFile? q = fs.readFile? q := by
  obtain ⟨fs1, filename, hcd, hfn, hdest, hcp⟩ := save_image_ok_elim hrun
  have hfree1 : fs1.pathExists ((parsePath storageDir ++ ["images"]) ++ [dest]) = false := by
    rcases destNameOf_spec fs1 (parsePath storageDir ++ ["images"]) filename with
      ⟨hfree, hd⟩ | ⟨_, n, _, hd, hfree, _⟩
    · rw [hdest, hd]
      exact hfree
    · rw [hdest, hd]
      exact hfree
  constructor
  · rw [← createDirAll_ok_pathExists_longer hcd (by simp)]
    exact hfree1
  · intro q hq
    obtain ⟨c, hsrc, hdirs, hfiles⟩ := copyFile_ok_elim hcp
    have hq1 : fs1.isFile q = true := by
      rw [createDirAll_ok_isFile hcd]
      exact hq
    have hqd : q ≠ (parsePath storageDir ++ ["images"]) ++ [dest] := by
      intro he
      have hff := pathExists_false_isFile hfree1
      rw [← he] at hff
      rw [hq1] at hff
      exact Bool.noConfusion hff
    unfold FS.readFile?
    rw [hfiles]
    rw [show assoc (((parsePath storageDir ++ ["images"]) ++ [dest], c) ::
        fs1.files.filter (fun e => e.1 ≠ (parsePath storageDir ++ ["images"]) ++ [dest])) q =
        assoc (fs1.files.filter (fun e => e.1 ≠ (parsePath storageDir ++ ["images"]) ++ [dest])) q
      from by rw [assoc, if_neg (fun he => hqd he.symm)]]
    rw [assoc_filter_ne hqd]
    rw [createDirAll_ok_files hcd]

/-- Witness for C2 at the spec's example import. -/
theorem save_image_no_overwrite_witness :
    photoFS.pathExists ((parsePath "root" ++ ["images"]) ++ ["photo-2.jpg"]) = false ∧
    ∀ q : Path, photoFS.isFile q = true → photoFS2.readFile? q = photoFS.readFile? q :=
  save_image_no_overwrite photoFS photoFS2 "root" "pics/photo.jpg" "photo-2.jpg" (by decide)

/-! ## Claim C3: invalid source path

The claim says the images directory "is not created if absent".  The
source calls `create_dir_all(&images_dir)` before extracting the file
name, so an import with an invalid source path does create the images
directory when absent; the counterexample below exhibits this, and the
amended theorem records what the code actually guarantees. -/

/-- A storage root whose `images` directory does not exist yet. -/
def noImagesFS : FS := ⟨[[], ["root"]], []⟩

/-- The state after `save_image noImagesFS "root" ""`: the error is
reported but the images directory has been created. -/
def noImagesFS2 : FS := ⟨[["root", "images"], [], ["root"]], []⟩

/-- Counterexample to C3 as stated: with the images directory absent, an
invalid import with an empty source path still fails with `InvalidSourcePath`, but
the images directory *is* created, contradicting the claim's "it is not
created if absent". -/
theorem save_image_invalid_source_cex :
    (save_image noImagesFS "root" "").1 = .error "Invalid source path" ∧
    noImagesFS.pathExists (parsePath "root" ++ ["images"]) = false ∧
    ((save_image noImagesFS "root" "").2).isDir (parsePath "root" ++ ["images"]) = true := by
  decide

/-- C3 (amended): if the source path has no extractable file name and the
images directory path can be provisioned (no component of it exists as a
regular file), the import fails with the `Invalid source path` error and
no file is created or modified; however the images directory (with any
missing ancestors) is created first if absent. -/
theorem save_image_invalid_source
    (fs : FS) (storageDir sourcePath : String)
    (hname : fileNameOf sourcePath = none)
    (hok : ((prefixesOf (parsePath storageDir ++ ["images"])).any
      (fun q => fs.isFile q)) = false) :
    ∃ fs1, save_image fs storageDir sourcePath = (.error "Invalid source path", fs1) ∧
      fs1.files = fs.files ∧
      fs1.isDir (parsePath storageDir ++ ["images"]) = true ∧
      ∀ q, fs.isDir q = true → fs1.isDir q = true := by
  cases hcd : fs.createDirAll (parsePath storageDir ++ ["images"]) with
  | error e =>
    unfold FS.createDirAll at hcd
    rw [if_neg (by rw [hok]; exact Bool.false_ne_true)] at hcd
    exact Except.noConfusion hcd
  | ok fs1 =>
    refine ⟨fs1, ?_, createDirAll_ok_files hcd, createDirAll_ok_isDir_self hcd,
      fun q hq => createDirAll_ok_isDir_mono hcd hq⟩
    unfold save_image
    rw [hcd, hname]

/-- Witness for the amended C3 at the concrete no-images-directory state. -/
theorem save_image_invalid_source_witness :
    save_image noImagesFS "root" "" = (.error "Invalid source path", noImagesFS2) ∧
    noImagesFS2.files = noImagesFS.files ∧
    noImagesFS2.isDir (parsePath "root" ++ ["images"]) = true := by
  obtain ⟨fs1, h1, h2, h3, _⟩ :=
    save_image_invalid_source noImagesFS "root" "" (by decide) (by decide)
  have hfs : fs1 = noImagesFS2 := by
    rw [show save_image noImagesFS "root" "" = (.error "Invalid source path", noImagesFS2)
      from by decide] at h1
    exact ((Prod.mk.injEq _ _ _ _).mp h1.symm).2
  rw [hfs] at h1 h2 h3
  exact ⟨h1, h2, h3⟩

/-! ## Claim C4: save/read round trip -/

lemma writeFile_ok_read {fs fs2 : FS} {p : Path} {c : String}
    (h : fs.writeFile p c = .ok fs2) : fs2.readFile? p = some c := by
  obtain ⟨_, hfiles⟩ := writeFile_ok_elim h
  unfold FS.readFile?
  rw [hfiles]
  simp [assoc]

/-- C4: for every path and every content (empty and multi-byte strings
included), a successful `save_presentation` followed by
`read_presentation` on the same path returns exactly that content. -/
theorem save_then_read_roundtrip (fs fs' : FS) (p c : String)
    (hrun : save_presentation fs p c = (.ok (), fs')) :
    read_presentation fs' p = .ok c := by
  have hread : fs'.readFile? (parsePath p) = some c := by
    unfold save_presentation at hrun
    split at hrun
    · rename_i parent hpar
      split at hrun
      · simp at hrun
      · rename_i fs1 hcd
        split at hrun
        · simp at hrun
        · rename_i fs2 hw
          simp only [Prod.mk.injEq] at hrun
          rw [← hrun.2]
          exact writeFile_ok_read hw
    · split at hrun
      · simp at hrun
      · rename_i fs2 hw
        simp only [Prod.mk.injEq] at hrun
        rw [← hrun.2]
        exact writeFile_ok_read hw
  unfold read_presentation
  rw [hread]

/-- A fresh filesystem holding only the root directory. -/
def emptyFS : FS := ⟨[[]], []⟩

/-- The state after saving a multi-byte document into `emptyFS`. -/
def emptyFS2 : FS := ⟨[["docs"], []], [(["docs", "a.json"], "héllo ∀ world")]⟩

/-- Witness for C4 with multi-byte content. -/
theorem save_then_read_roundtrip_witness :
    read_presentation emptyFS2 "docs/a.json" = .ok "héllo ∀ world" :=
  save_then_read_roundtrip emptyFS emptyFS2 "docs/a.json" "héllo ∀ world" (by decide)

/-! ## Listing elimination lemmas -/

lemma list_presentations_ok_elim {fs fs' : FS} {dirPath : String} {es : List FileEntry}
    (h : list_presentations fs dirPath = (.ok es, fs')) :
    fs'.isDir (parsePath dirPath) = true ∧
    fs'.files = fs.files ∧
    es = listPresProcess fs' dirPath (parsePath dirPath)
      ((fs'.readDirNames (parsePath dirPath)).map Except.ok) := by
  unfold list_presentations at h
  split at h
  · split at h
    · simp at h
    · rename_i names hrd
      simp only [Prod.mk.injEq] at h
      obtain ⟨h1, h2⟩ := h
      injection h1 with h1
      subst h2
      unfold FS.readDir at hrd
      split at hrd
      · rename_i hdir
        injection hrd with hrd2
        exact ⟨hdir, rfl, by rw [← h1, ← hrd2]⟩
      · exact Except.noConfusion hrd
  · split at h
    · simp at h
    · rename_i fs1 hcd
      split at h
      · simp at h
      · rename_i names hrd
        simp only [Prod.mk.injEq] at h
        obtain ⟨h1, h2⟩ := h
        injection h1 with h1
        subst h2
        unfold FS.readDir at hrd
        split at hrd
        · rename_i hdir
          injection hrd with hrd2
          exact ⟨hdir, createDirAll_ok_files hcd, by rw [← h1, ← hrd2]⟩
        · exact Except.noConfusion hrd

lemma list_images_ok_exists_elim {fs fs' : FS} {storageDir : String} {es : List ImageEntry}
    (hex : fs.pathExists (parsePath storageDir ++ ["images"]) = true)
    (h : list_images fs storageDir = (.ok es, fs')) :
    fs' = fs ∧ fs.isDir (parsePath storageDir ++ ["images"]) = true ∧
    es = listImagesProcess fs (joinStr storageDir "images")
      (parsePath storageDir ++ ["images"])
      ((fs.readDirNames (parsePath storageDir ++ ["images"])).map Except.ok) := by
  unfold list_images at h
  rw [if_pos hex] at h
  split at h
  · simp at h
  · rename_i names hrd
    simp only [Prod.mk.injEq] at h
    obtain ⟨h1, h2⟩ := h
    injection h1 with h1
    unfold FS.readDir at hrd
    split at hrd
    · rename_i hdir
      injection hrd with hrd2
      exact ⟨h2.symm, hdir, by rw [← h1, ← hrd2]⟩
    · exact Except.noConfusion hrd

/-! ## Claim C5: presentation listing filter -/

/-- C5: a successful `list_presentations` returns an entry exactly for
each regular file directly inside the root whose name ends with `.json`;
subdirectories and non-JSON files yield nothing.  The membership is stated
against the returned state, which differs from the input state only by the
possibly provisioned root directory (same files). -/
theorem list_presentations_json_filter
    (fs fs' : FS) (dirPath : String) (es : List FileEntry)
    (hrun : list_presentations fs dirPath = (.ok es, fs')) :
    ∀ e : FileEntry, e ∈ es ↔
      (fs'.isFile (parsePath dirPath ++ [e.name]) = true ∧
       strEndsWith e.name ".json" = true ∧
       e = ⟨e.name, joinStr dirPath e.name, false⟩) := by
  obtain ⟨hdir, hfiles, hes⟩ := list_presentations_ok_elim hrun
  intro e
  rw [hes, mem_listPresProcess]
  constructor
  · rintro ⟨n, hn, hf, hjson, rfl⟩
    exact ⟨hf, hjson, rfl⟩
  · rintro ⟨hf, hjson, he⟩
    exact ⟨e.name, mem_readDirNames.mpr (Or.inl hf), hf, hjson, he⟩

/-- Directory with `a.json`, `b.txt` and a subdirectory `c`. -/
def listExFS : FS :=
  ⟨[[], ["docs"], ["docs", "c"]],
   [(["docs", "a.json"], "{}"), (["docs", "b.txt"], "t")]⟩

/-- Witness for C5: on the spec's example directory the result is exactly
one entry, named `a.json`. -/
theorem list_presentations_json_filter_witness :
    list_presentations listExFS "docs" =
      (.ok [⟨"a.json", "docs/a.json", false⟩], listExFS) ∧
    ((⟨"a.json", "docs/a.json", false⟩ : FileEntry) ∈
        [(⟨"a.json", "docs/a.json", false⟩ : FileEntry)] ↔
      (listExFS.isFile (parsePath "docs" ++ ["a.json"]) = true ∧
       strEndsWith "a.json" ".json" = true ∧
       (⟨"a.json", "docs/a.json", false⟩ : FileEntry) =
         ⟨"a.json", joinStr "docs" "a.json", false⟩)) :=
  ⟨by decide,
   list_presentations_json_filter listExFS listExFS "docs"
     [⟨"a.json", "docs/a.json", false⟩] (by decide)
     ⟨"a.json", "docs/a.json", false⟩⟩

/-! ## Claim C6: image listing filter -/

/-- C6: when the images directory exists, a successful `list_images`
returns an entry exactly for each regular file directly inside it whose
lower-cased extension is in the allow-list
`{png, jpg, jpeg, gif, webp, svg, bmp}`. -/
theorem list_images_extension_filter
    (fs fs' : FS) (storageDir : String) (es : List ImageEntry)
    (hex : fs.pathExists (parsePath storageDir ++ ["images"]) = true)
    (hrun : list_images fs storageDir = (.ok es, fs')) :
    ∀ e : ImageEntry, e ∈ es ↔
      (fs.isFile ((parsePath storageDir ++ ["images"]) ++ [e.name]) = true ∧
       imageExtensions.contains (strToLower (((splitStemExt e.name).2).getD "")) = true ∧
       e = ⟨e.name, joinStr (joinStr storageDir "images") e.name⟩) := by
  obtain ⟨hstate, hdir, hes⟩ := list_images_ok_exists_elim hex hrun
  intro e
  rw [hes, mem_listImagesProcess]
  constructor
  · rintro ⟨n, hn, hf, hx, rfl⟩
    exact ⟨hf, hx, rfl⟩
  · rintro ⟨hf, hx, he⟩
    exact ⟨e.name, mem_readDirNames.mpr (Or.inl hf), hf, hx, he⟩

/-- Images directory with `x.png`, `y.PNG`, `z.txt` and a subdirectory. -/
def imagesExFS : FS :=
  ⟨[[], ["root"], ["root", "images"], ["root", "images", "sub"]],
   [(["root", "images", "x.png"], "X"),
    (["root", "images", "y.PNG"], "Y"),
    (["root", "images", "z.txt"], "Z")]⟩

/-- Witness for C6: the spec's example yields entries for `x.png` and
`y.PNG` (case-insensitive match) only. -/
theorem list_images_extension_filter_witness :
    list_images imagesExFS "root" =
      (.ok [⟨"x.png", "root/images/x.png"⟩, ⟨"y.PNG", "root/images/y.PNG"⟩], imagesExFS) ∧
    ((⟨"y.PNG", "root/images/y.PNG"⟩ : ImageEntry) ∈
        [(⟨"x.png", "root/images/x.png"⟩ : ImageEntry),
         ⟨"y.PNG", "root/images/y.PNG"⟩] ↔
      (imagesExFS.isFile ((parsePath "root" ++ ["images"]) ++ ["y.PNG"]) = true ∧
       imageExtensions.contains (strToLower (((splitStemExt "y.PNG").2).getD "")) = true ∧
       (⟨"y.PNG", "root/images/y.PNG"⟩ : ImageEntry) =
         ⟨"y.PNG", joinStr (joinStr "root" "images") "y.PNG"⟩)) :=
  ⟨by decide,
   list_images_extension_filter imagesExFS imagesExFS "root"
     [⟨"x.png", "root/images/x.png"⟩, ⟨"y.PNG", "root/images/y.PNG"⟩]
     (by decide) (by decide) ⟨"y.PNG", "root/images/y.PNG"⟩⟩

/-! ## Claim C7: idempotent bootstrap -/

lemma listImagesProcess_nil (fs : FS) (dirStr : String) (d : Path) (names : List String)
    (h : ∀ n ∈ names, fs.isFile (d ++ [n]) = false) :
    listImagesProcess fs dirStr d (names.map Except.ok) = [] := by
  induction names with
  | nil => rfl
  | cons n t ih =>
    have hn := h n (by simp)
    show (Except.ok n :: t.map Except.ok).filterMap (imageEntry fs dirStr d) = []
    rw [List.filterMap_cons]
    rw [show imageEntry fs dirStr d (Except.ok n) =
        (if fs.isFile (d ++ [n]) = true then
          (if imageExtensions.contains (strToLower (((splitStemExt n).2).getD "")) = true then
            some (⟨n, joinStr dirStr n⟩ : ImageEntry) else none) else none) from rfl]
    rw [hn, if_neg Bool.false_ne_true]
    exact ih (fun m hm => h m (by simp [hm]))

lemma listPresProcess_nil (fs : FS) (dirStr : String) (d : Path) (names : List String)
    (h : ∀ n ∈ names, fs.isFile (d ++ [n]) = false) :
    listPresProcess fs dirStr d (names.map Except.ok) = [] := by
  induction names with
  | nil => rfl
  | cons n t ih =>
    have hn := h n (by simp)
    show (Except.ok n :: t.map Except.ok).filterMap (presEntry fs dirStr d) = []
    rw [List.filterMap_cons]
    rw [show presEntry fs dirStr d (Except.ok n) =
        (if (fs.isFile (d ++ [n]) && strEndsWith n ".json") = true then
          some (⟨n, joinStr dirStr n, false⟩ : FileEntry) else none) from rfl]
    rw [hn, if_neg (by simp)]
    exact ih (fun m hm => h m (by simp [hm]))

lemma isDir_pathExists {fs : FS} {p : Path} (h : fs.isDir p = true) :
    fs.pathExists p = true := by
  unfold FS.pathExists
  rw [h, Bool.true_or]

/-- C7: on a fresh root (target directory absent, no files below it), the
first listing call provisions the directory and returns an empty sequence,
and an immediate second call leaves the state unchanged and returns an
empty sequence again — for the images listing and the presentations
listing alike. -/
theorem listing_bootstrap_idempotent
    (fs g : FS) (storageDir rootDir : String)
    (hcd : ((prefixesOf (parsePath storageDir ++ ["images"])).any
      (fun q => fs.isFile q)) = false)
    (habs : fs.pathExists (parsePath storageDir ++ ["images"]) = false)
    (hnof : ∀ name : String,
      fs.isFile ((parsePath storageDir ++ ["images"]) ++ [name]) = false)
    (hcd2 : ((prefixesOf (parsePath rootDir)).any (fun q => g.isFile q)) = false)
    (habs2 : g.pathExists (parsePath rootDir) = false)
    (hnof2 : ∀ name : String, g.isFile (parsePath rootDir ++ [name]) = false) :
    (∃ fs1, list_images fs storageDir = (.ok [], fs1) ∧
      fs1.isDir (parsePath storageDir ++ ["images"]) = true ∧
      list_images fs1 storageDir = (.ok [], fs1)) ∧
    (∃ g1, list_presentations g rootDir = (.ok [], g1) ∧
      g1.isDir (parsePath rootDir) = true ∧
      list_presentations g1 rootDir = (.ok [], g1)) := by
  constructor
  · cases hc : fs.createDirAll (parsePath storageDir ++ ["images"]) with
    | error e =>
      unfold FS.createDirAll at hc
      rw [if_neg (by rw [hcd]; exact Bool.false_ne_true)] at hc
      exact Except.noConfusion hc
    | ok fs1 =>
      have hdir1 : fs1.isDir (parsePath storageDir ++ ["images"]) = true :=
        createDirAll_ok_isDir_self hc
      have hnil := listImagesProcess_nil fs1 (joinStr storageDir "images")
        (parsePath storageDir ++ ["images"])
        (fs1.readDirNames (parsePath storageDir ++ ["images"]))
        (fun n _ => by rw [createDirAll_ok_isFile hc]; exact hnof n)
      refine ⟨fs1, ?_, hdir1, ?_⟩
      · unfold list_images
        rw [if_neg (by rw [habs]; exact Bool.false_ne_true)]
        simp only [hc]
      · unfold list_images
        rw [if_pos (isDir_pathExists hdir1)]
        unfold FS.readDir
        rw [if_pos hdir1]
        simp only [hnil]
  · cases hc : g.createDirAll (parsePath rootDir) with
    | error e =>
      unfold FS.createDirAll at hc
      rw [if_neg (by rw [hcd2]; exact Bool.false_ne_true)] at hc
      exact Except.noConfusion hc
    | ok g1 =>
      have hdir1 : g1.isDir (parsePath rootDir) = true := createDirAll_ok_isDir_self hc
      have hnil := listPresProcess_nil g1 rootDir (parsePath rootDir)
        (g1.readDirNames (parsePath rootDir))
        (fun n _ => by rw [createDirAll_ok_isFile hc]; exact hnof2 n)
      refine ⟨g1, ?_, hdir1, ?_⟩
      · unfold list_presentations
        rw [if_neg (by rw [habs2]; exact Bool.false_ne_true)]
        simp only [hc]
        unfold FS.readDir
        rw [if_pos hdir1]
        simp only [hnil]
      · unfold list_presentations
        rw [if_pos (isDir_pathExists hdir1)]
        unfold FS.readDir
        rw [if_pos hdir1]
        simp only [hnil]

/-- A completely fresh filesystem. -/
def freshFS : FS := ⟨[], []⟩

/-- `freshFS` after provisioning `root/images`. -/
def freshImagesFS : FS := ⟨[[], ["root"], ["root", "images"]], []⟩

/-- `freshFS` after provisioning the presentations root `base`. -/
def freshBaseFS : FS := ⟨[[], ["base"]], []⟩

/-- Witness for C7 on a fresh filesystem. -/
theorem listing_bootstrap_idempotent_witness :
    list_images freshFS "root" = (.ok [], freshImagesFS) ∧
    freshImagesFS.isDir (parsePath "root" ++ ["images"]) = true ∧
    list_images freshImagesFS "root" = (.ok [], freshImagesFS) ∧
    list_presentations freshFS "base" = (.ok [], freshBaseFS) ∧
    list_presentations freshBaseFS "base" = (.ok [], freshBaseFS) := by
  obtain ⟨⟨fs1, h1, h2, h3⟩, ⟨g1, h4, h5, h6⟩⟩ :=
    listing_bootstrap_idempotent freshFS freshFS "root" "base"
      (by decide) (by decide) (fun _ => rfl) (by decide) (by decide) (fun _ => rfl)
  have hfs : fs1 = freshImagesFS := by
    rw [show list_images freshFS "root" = (.ok [], freshImagesFS) from by decide] at h1
    exact ((Prod.mk.injEq _ _ _ _).mp h1.symm).2
  have hg : g1 = freshBaseFS := by
    rw [show list_presentations freshFS "base" = (.ok [], freshBaseFS) from by decide] at h4
    exact ((Prod.mk.injEq _ _ _ _).mp h4.symm).2
  rw [hfs] at h1 h2 h3
  rw [hg] at h4 h6
  exact ⟨h1, h2, h3, h4, h6⟩

/-! ## Claim C8: delete and delete-then-list -/

lemma removeFile_ok_elim {fs fs2 : FS} {p : Path} (h : fs.removeFile p = .ok fs2) :
    fs2.dirs = fs.dirs ∧ fs2.files = fs.files.filter (fun e => e.1 ≠ p) := by
  unfold FS.removeFile at h
  split at h
  · injection h with h2
    rw [← h2]
    exact ⟨rfl, rfl⟩
  · exact Except.noConfusion h

/-- C8: deleting a non-existent path fails with the `NotFound` error and
changes nothing; after a successful delete of `p`, listing `p`'s parent
directory no longer yields any entry carrying `p`'s file name. -/
theorem delete_presentation_spec :
    (∀ (fs : FS) (path : String), fs.pathExists (parsePath path) = false →
      delete_presentation fs path =
        (.error ("Failed to delete file: " ++ FsError.msg .notFound), fs)) ∧
    (∀ (fs fs' g : FS) (path dirPath name : String) (es : List FileEntry),
      parsePath path = parsePath dirPath ++ [name] →
      delete_presentation fs path = (.ok (), fs') →
      list_presentations fs' dirPath = (.ok es, g) →
      ∀ e ∈ es, e.name ≠ name) := by
  constructor
  · intro fs path hnone
    unfold delete_presentation FS.removeFile
    rw [if_neg (by rw [pathExists_false_isFile hnone]; exact Bool.false_ne_true)]
    rw [if_neg (by rw [pathExists_false_isDir hnone]; exact Bool.false_ne_true)]
  · intro fs fs' g path dirPath name es hp hdel hlist e hmem hname
    have hdel2 : fs.removeFile (parsePath path) = .ok fs' := by
      unfold delete_presentation at hdel
      split at hdel
      · simp at hdel
      · rename_i fs2 hrm
        simp only [Prod.mk.injEq] at hdel
        rw [← hdel.2]
        exact hrm
    obtain ⟨_, hfiles⟩ := removeFile_ok_elim hdel2
    have hgone : fs'.isFile (parsePath path) = false := by
      unfold FS.isFile FS.readFile?
      rw [hfiles, assoc_filter_self]
      rfl
    obtain ⟨_, hgfiles, hes⟩ := list_presentations_ok_elim hlist
    rw [hes, mem_listPresProcess] at hmem
    obtain ⟨n, _, hf, _, he⟩ := hmem
    have hen : e.name = n := by rw [he]
    rw [hen] at hname
    rw [hname] at hf
    have hf2 : fs'.isFile (parsePath dirPath ++ [name]) = true := by
      unfold FS.isFile FS.readFile? at hf ⊢
      rw [← hgfiles]
      exact hf
    rw [← hp] at hf2
    rw [hgone] at hf2
    exact Bool.noConfusion hf2

/-- Directory with two presentations, used by the C8 witness. -/
def delFS : FS :=
  ⟨[[], ["docs"]],
   [(["docs", "a.json"], "x"), (["docs", "b.json"], "y")]⟩

/-- `delFS` after deleting `docs/a.json`. -/
def delFS2 : FS := ⟨[[], ["docs"]], [(["docs", "b.json"], "y")]⟩

/-- Witness for C8: deleting `docs/a.json` succeeds and the subsequent
listing entry is not named `a.json`; deleting a missing path fails with
the `NotFound` rendering. -/
theorem delete_presentation_spec_witness :
    delete_presentation delFS "missing" =
      (.error ("Failed to delete file: " ++ FsError.msg .notFound), delFS) ∧
    delete_presentation delFS "docs/a.json" = (.ok (), delFS2) ∧
    (⟨"b.json", "docs/b.json", false⟩ : FileEntry).name ≠ "a.json" :=
  ⟨delete_presentation_spec.1 delFS "missing" (by decide),
   by decide,
   delete_presentation_spec.2 delFS delFS2 delFS2 "docs/a.json" "docs" "a.json"
     [⟨"b.json", "docs/b.json", false⟩] (by decide) (by decide) (by decide)
     ⟨"b.json", "docs/b.json", false⟩ (by decide)⟩

/-! ## Claim C9: default storage root -/

/-- C9: `get_documents_path` performs no filesystem side effect, returns
the platform documents directory joined with the fixed `Presentor` folder
name, and fails exactly when the platform reports no documents
directory. -/
theorem get_documents_path_spec :
    ∀ (fs : FS) (documentDir : Option String),
      (get_documents_path fs documentDir).2 = fs ∧
      (get_documents_path fs documentDir).1 =
        (match documentDir with
          | some p => .ok (joinStr p "Presentor")
          | none => .error "Could not find documents directory") := by
  intro fs documentDir
  cases documentDir
  · exact ⟨rfl, rfl⟩
  · exact ⟨rfl, rfl⟩

/-! ## Claim C10: per-entry errors are dropped -/

lemma listPresProcess_drop_errors (fs : FS) (dirStr : String) (d : Path) :
    ∀ raw : List (Except String String),
      listPresProcess fs dirStr d raw =
        listPresProcess fs dirStr d ((raw.filterMap Except.toOption).map Except.ok) := by
  intro raw
  induction raw with
  | nil => rfl
  | cons r t ih =>
    cases r with
    | error e => exact ih
    | ok n =>
      show (Except.ok n :: t).filterMap (presEntry fs dirStr d) =
        (Except.ok n :: (t.filterMap Except.toOption).map Except.ok).filterMap
          (presEntry fs dirStr d)
      rw [List.filterMap_cons, List.filterMap_cons]
      cases hpe : presEntry fs dirStr d (Except.ok n) with
      | none =>
        simp only [hpe]
        exact ih
      | some v =>
        simp only [hpe]
        exact congrArg (fun l => v :: l) ih

lemma listImagesProcess_drop_errors (fs : FS) (dirStr : String) (d : Path) :
    ∀ raw : List (Except String String),
      listImagesProcess fs dirStr d raw =
        listImagesProcess fs dirStr d ((raw.filterMap Except.toOption).map Except.ok) := by
  intro raw
  induction raw with
  | nil => rfl
  | cons r t ih =>
    cases r with
    | error e => exact ih
    | ok n =>
      show (Except.ok n :: t).filterMap (imageEntry fs dirStr d) =
        (Except.ok n :: (t.filterMap Except.toOption).map Except.ok).filterMap
          (imageEntry fs dirStr d)
      rw [List.filterMap_cons, List.filterMap_cons]
      cases hpe : imageEntry fs dirStr d (Except.ok n) with
      | none =>
        simp only [hpe]
        exact ih
      | some v =>
        simp only [hpe]
        exact congrArg (fun l => v :: l) ih

/-- C10: in both listing operations, a raw directory entry whose
enumeration yielded an error is silently dropped by the per-entry
processing — processing any raw entry sequence gives the same entries as
processing only its successful elements — so a per-entry failure never
fails the whole call. -/
theorem listing_drops_failed_entries :
    ∀ (fs : FS) (dirStr : String) (d : Path) (raw : List (Except String String)),
      listPresProcess fs dirStr d raw =
        listPresProcess fs dirStr d ((raw.filterMap Except.toOption).map Except.ok) ∧
      listImagesProcess fs dirStr d raw =
        listImagesProcess fs dirStr d ((raw.filterMap Except.toOption).map Except.ok) :=
  fun fs dirStr d raw =>
    ⟨listPresProcess_drop_errors fs dirStr d raw,
     listImagesProcess_drop_errors fs dirStr d raw⟩

end Presentor
